import Mathlib

/-!
# A verification development for the pickai model-recommendation engine

This file gives a shallow embedding, in Lean 4, of the core algorithms of the
pickai library (classification, scoring, selection, and purpose-based
recommendation), translated from the TypeScript sources
(`classify.ts`, `id.ts`, `score.ts`, `select.ts`, `purpose.ts`), and proves
properties of the embedded functions.

Conventions of the embedding:
* JavaScript numbers are embedded as `ℚ` (all arithmetic in the engine is
  exact on the inputs the library receives; no claim below depends on
  floating-point rounding).
* Optional fields (`pricing?`, `contextWindow?`, ...) are `Option`s; the
  `?? 0` / `?.` defaulting of the source is translated explicitly.
* `Array.prototype.sort` with the comparator `(a, b) => b.score - a.score`
  is a stable descending sort (ECMAScript mandates stability); it is embedded
  as a stable insertion sort, which computes the same list.
* A JavaScript runtime `TypeError` (reading a property of `undefined`) is
  embedded as the `Except.error` branch of `Except Unit`.
-/

/-! ## String helpers

`String.toLower` and substring search are re-implemented structurally over
`List Char` so that every definition evaluates by kernel reduction.
`strLower` agrees with JavaScript `toLowerCase` on the ASCII identifiers and
names the library manipulates, and `includesStr s pat` is JavaScript
`s.includes(pat)`. -/

/-- Lowercase a string character-by-character (ASCII `toLowerCase`). -/
def strLower (s : String) : String := ⟨s.data.map Char.toLower⟩

/-- Test `isPrefixL pat l` : does `l` start with `pat`? -/
def isPrefixL : List Char → List Char → Bool
  | [], _ => true
  | _ :: _, [] => false
  | a :: as, b :: bs => a == b && isPrefixL as bs

/-- Test `containsL pat l` : does `pat` occur as a contiguous substring of `l`? -/
def containsL (pat : List Char) : List Char → Bool
  | [] => isPrefixL pat []
  | c :: cs => isPrefixL pat (c :: cs) || containsL pat cs

/-- JavaScript `s.includes(pat)` (contiguous substring test). -/
def includesStr (s pat : String) : Bool := containsL pat.data s.data

/-! ## Data model (`types.ts`)

The branded string tiers of the source become two inductive types, one per
axis, exactly as the source's design notes prescribe. -/

/-- Capability tier (`Tier.Efficient | Tier.Standard | Tier.Flagship`). -/
inductive ModelTier where
  | efficient
  | standard
  | flagship
  deriving DecidableEq

/-- Cost tier (`Cost.Free | Budget | Standard | Premium | Ultra`). -/
inductive CostTier where
  | free
  | budget
  | standard
  | premium
  | ultra
  deriving DecidableEq

/-- The `pricing` sub-object: USD per 1M tokens. -/
structure Pricing where
  input : ℚ
  output : ℚ
  deriving DecidableEq

/-- The `modality` sub-object. -/
structure Modality where
  input : List String
  output : List String
  deriving DecidableEq

/-- The `capabilities` sub-object (each flag itself optional in the source). -/
structure Capabilities where
  tools : Option Bool := none
  vision : Option Bool := none
  streaming : Option Bool := none
  json : Option Bool := none
  deriving DecidableEq

/-- The canonical `Model` record of `types.ts`. -/
structure Model where
  id : String
  apiId : String
  openRouterId : String
  name : String
  provider : String
  contextWindow : Option ℚ := none
  pricing : Option Pricing := none
  modality : Option Modality := none
  capabilities : Option Capabilities := none
  created : Option String := none
  deriving DecidableEq

/-- A `ScoredModel` : a `Model` plus a computed `score`. -/
structure ScoredModel extends Model where
  score : ℚ
  deriving DecidableEq

/-- Translation of `model.pricing?.input ?? 0`. -/
def priceOf (m : Model) : ℚ := (m.pricing.map Pricing.input).getD 0

/-- Translation of `model.pricing?.output ?? 0`. -/
def outPriceOf (m : Model) : ℚ := (m.pricing.map Pricing.output).getD 0

/-- Translation of `model.contextWindow ?? 0`. -/
def ctxOf (m : Model) : ℚ := m.contextWindow.getD 0

/-! ## Classifier (`classify.ts`) -/

/-- Index of a capability tier in `TIER_ORDER = [efficient, standard, flagship]`. -/
def tierIdx : ModelTier → Nat
  | .efficient => 0
  | .standard => 1
  | .flagship => 2

/-- Index of a cost tier in `COST_ORDER = [free, budget, standard, premium, ultra]`. -/
def costIdx : CostTier → Nat
  | .free => 0
  | .budget => 1
  | .standard => 2
  | .premium => 3
  | .ultra => 4

/-- Translation of `classifyTier` from `classify.ts`: efficient-variant name patterns first
(`"-mini"`, `" mini"`, ... ; `"haiku"`/`"tiny"` unanchored), then flagship
patterns (`"opus"`, `"ultra"`, `"-pro"`/`" pro"`) or input price ≥ 10,
else standard. -/
def classifyTier (model : Model) : ModelTier :=
  let id := strLower model.id
  let name := strLower model.name
  let isEfficient :=
    includesStr id "-mini" ||
    includesStr id "-nano" ||
    includesStr id "-lite" ||
    includesStr id "-flash" ||
    includesStr id "haiku" ||
    includesStr id "tiny" ||
    includesStr id "-small" ||
    includesStr name " mini" ||
    includesStr name " nano" ||
    includesStr name " lite" ||
    includesStr name " flash" ||
    includesStr name "haiku" ||
    includesStr name "tiny" ||
    includesStr name " small"
  if isEfficient then .efficient
  else
    let isFlagshipByName :=
      ["opus", "ultra"].any fun p => includesStr id p || includesStr name p
    let isProModel := includesStr id "-pro" || includesStr name " pro"
    let isHighCost := decide ((model.pricing.map Pricing.input).getD 0 ≥ 10)
    if isFlagshipByName || isProModel || isHighCost then .flagship
    else .standard

/-- Translation of `classifyCostTier` from `classify.ts`. Note that the `free` case tests
both the input and the output price. -/
def classifyCostTier (model : Model) : CostTier :=
  let input := (model.pricing.map Pricing.input).getD 0
  let output := (model.pricing.map Pricing.output).getD 0
  if input = 0 ∧ output = 0 then .free
  else if input < 2 then .budget
  else if input < 10 then .standard
  else if input < 20 then .premium
  else .ultra

/-- Translation of `isTextFocused` from `classify.ts`: true when `modality` is unset, and
otherwise when the outputs include `"text"` and none of
`"image"`, `"audio"`, `"video"`. -/
def isTextFocused (model : Model) : Bool :=
  match model.modality with
  | none => true
  | some mo =>
      mo.output.contains "text" &&
      !(mo.output.any fun m => ["image", "audio", "video"].contains m)

/-! ## ID-versioning helper (`id.ts`, `extractVersion`)

`extractVersion` applies three regular expressions in order; each is
translated as a left-to-right scan over the lowercased character list,
reproducing the leftmost-match semantics of JavaScript `String.match`. -/

/-- Numeric value of a digit character. -/
def digitVal (c : Char) : Nat := c.toNat - '0'.toNat

/-- Split off the maximal leading run of decimal digits. -/
def takeDigits : List Char → List Char × List Char
  | [] => ([], [])
  | c :: cs =>
      if c.isDigit then
        let (ds, rest) := takeDigits cs
        (c :: ds, rest)
      else ([], c :: cs)

/-- Value of a digit run. -/
def digitsToNat (ds : List Char) : Nat := ds.foldl (fun n c => n * 10 + digitVal c) 0

/-- Scan for the first match of the pattern `(?<![x\d])(\d+)\.(\d+)(?!b)(?!x)`:
a digit run not preceded by `x` or a digit, a dot, and a digit run whose
following character is neither `b` nor `x` (the regex backtracks the minor
run by one digit when the greedy run is followed by `b` or `x`).
Returns the (major, minor) values of the first match. -/
def dotScan : Option Char → List Char → Option (Nat × Nat)
  | _, [] => none
  | prev, c :: cs =>
      if c.isDigit && (match prev with
          | none => true
          | some p => !(p.isDigit || p == 'x')) then
        let (majorDs, rest1) := takeDigits (c :: cs)
        match rest1 with
        | '.' :: rest2 =>
            let (minorDs, rest3) := takeDigits rest2
            if minorDs.isEmpty then dotScan (some c) cs
            else
              let nextBad := match rest3 with
                | [] => false
                | n :: _ => n == 'b' || n == 'x'
              if !nextBad then some (digitsToNat majorDs, digitsToNat minorDs)
              else if minorDs.length ≥ 2 then
                some (digitsToNat majorDs, digitsToNat minorDs.dropLast)
              else dotScan (some c) cs
        | _ => dotScan (some c) cs
      else dotScan (some c) cs

/-- Scan for the first match of the pattern `hyphen ([1-9]) (?![0-9.bx])`. -/
def singleScan : List Char → Option Nat
  | [] => none
  | '-' :: c :: cs =>
      if '1' ≤ c ∧ c ≤ '9' then
        match cs with
        | [] => some (digitVal c)
        | n :: _ =>
            if !(n.isDigit || n == '.' || n == 'b' || n == 'x') then
              some (digitVal c)
            else singleScan (c :: cs)
      else singleScan (c :: cs)
  | _ :: cs => singleScan cs

/-- JavaScript `\w` (word character). -/
def isWordChar (c : Char) : Bool := c.isAlphanum || c == '_'

/-- Scan for the first match of the pattern `\bo([1-9])(?:-|$)`. -/
def oScan : Option Char → List Char → Option Nat
  | prev, 'o' :: c :: cs =>
      if ((match prev with
          | none => true
          | some p => !(isWordChar p)) &&
          decide ('1' ≤ c) && decide (c ≤ '9') &&
          (match cs with
           | [] => true
           | n :: _ => n == '-')) then
        some (digitVal c)
      else oScan (some 'o') (c :: cs)
  | _, c :: cs => oScan (some c) cs
  | _, [] => none

/-- Translation of `extractVersion` from `id.ts`: `X.Y` versions map to `X*100 + Y*10`
(only when `1 ≤ X ≤ 9`; otherwise the scan falls through), hyphen-anchored
single digits and o-series model numbers map to `X*100`, everything else
to `0`. -/
def extractVersion (modelId : String) : ℚ :=
  let lower := (strLower modelId).data
  let dotV : Option Nat :=
    match dotScan none lower with
    | some (major, minor) =>
        if 1 ≤ major ∧ major ≤ 9 then some (major * 100 + minor * 10) else none
    | none => none
  match dotV with
  | some v => (v : ℚ)
  | none =>
      match singleScan lower with
      | some d => ((d * 100 : Nat) : ℚ)
      | none =>
          match oScan none lower with
          | some d => ((d * 100 : Nat) : ℚ)
          | none => 0

/-! ## Creation-date helper

`recency` calls `new Date(model.created).getTime()`. The adapter always
stores `created` as an ISO `YYYY-MM-DD` string (`toISOString().slice(0, 10)`),
for which `getTime()` is UTC midnight in epoch milliseconds; that conversion
is embedded below via the standard civil-calendar day count. (Strings of any
other shape never reach the scorer in this codebase.) -/

/-- Split a character list on `'-'`. -/
def splitOnDash : List Char → List (List Char)
  | [] => [[]]
  | '-' :: cs => [] :: splitOnDash cs
  | c :: cs =>
      match splitOnDash cs with
      | [] => [[c]]
      | p :: ps => (c :: p) :: ps

/-- Parse a non-empty all-digit character run. -/
def charsToNat? (cs : List Char) : Option Nat :=
  if cs.isEmpty || !(cs.all Char.isDigit) then none
  else some (digitsToNat cs)

/-- Days since 1970-01-01 of a proleptic-Gregorian civil date
(Howard Hinnant's `days_from_civil`; all divisions below act on
non-negative operands, where every integer-division convention agrees). -/
def daysFromCivil (y m d : Int) : Int :=
  let y' := if m ≤ 2 then y - 1 else y
  let era : Int := (if 0 ≤ y' then y' else y' - 399) / 400
  let yoe := y' - era * 400
  let mp := (m + 9) % 12
  let doy := (153 * mp + 2) / 5 + d - 1
  let doe := yoe * 365 + yoe / 4 - yoe / 100 + doy
  era * 146097 + doe - 719468

/-- Value of `new Date("YYYY-MM-DD").getTime()` : UTC-midnight epoch milliseconds. -/
def parseIsoDateMs (s : String) : ℚ :=
  match splitOnDash s.data with
  | [ys, ms, ds] =>
      match charsToNat? ys, charsToNat? ms, charsToNat? ds with
      | some y, some mo, some d =>
          ((daysFromCivil (y : Int) (mo : Int) (d : Int) * 86400000 : Int) : ℚ)
      | _, _, _ => 0
  | _ => 0

/-- Translation of `m.created ? new Date(m.created).getTime() : 0`. -/
def createdMs (m : Model) : ℚ :=
  match m.created with
  | some s => parseIsoDateMs s
  | none => 0

/-! ## Scorer (`score.ts`) -/

/-- Translation of `minMax` from `score.ts`: min-max normalization, `0` when `max = min`. -/
def minMax (value mn mx : ℚ) : ℚ :=
  if mx = mn then 0 else (value - mn) / (mx - mn)

/-- Minimum of a value list (`range().min`; the source folds from an
`Infinity` sentinel, which on the non-empty lists the pipeline produces
computes exactly this fold). -/
def rangeMin : List ℚ → ℚ
  | [] => 0
  | v :: vs => vs.foldl min v

/-- Maximum of a value list (`range().max`, same remark as `rangeMin`). -/
def rangeMax : List ℚ → ℚ
  | [] => 0
  | v :: vs => vs.foldl max v

/-- The `costEfficiency` criterion: inverted min-max of input price;
`0` when the set has no price variance. -/
def costEfficiency (model : Model) (allModels : List Model) : ℚ :=
  let prices := allModels.map priceOf
  let mn := rangeMin prices
  let mx := rangeMax prices
  let price := priceOf model
  if minMax price mn mx = 0 ∧ mn = mx then 0 else 1 - minMax price mn mx

/-- The `contextCapacity` criterion: min-max of context-window size. -/
def contextCapacity (model : Model) (allModels : List Model) : ℚ :=
  let sizes := allModels.map ctxOf
  minMax (ctxOf model) (rangeMin sizes) (rangeMax sizes)

/-- The `recency` criterion: min-max of creation timestamp. -/
def recency (model : Model) (allModels : List Model) : ℚ :=
  let timestamps := allModels.map createdMs
  minMax (createdMs model) (rangeMin timestamps) (rangeMax timestamps)

/-- The `versionFreshness` criterion: min-max of `extractVersion`. -/
def versionFreshness (model : Model) (allModels : List Model) : ℚ :=
  let versions := allModels.map (fun m => extractVersion m.id)
  minMax (extractVersion model.id) (rangeMin versions) (rangeMax versions)

/-- The `tierFit(targetTier)` criterion: 1.0 / 0.5 / 0.1 by tier distance. -/
def tierFit (targetTier : ModelTier) (model : Model) (_allModels : List Model) : ℚ :=
  let distance :=
    ((tierIdx targetTier : Int) - (tierIdx (classifyTier model) : Int)).natAbs
  if distance = 0 then 1
  else if distance = 1 then 1 / 2
  else 1 / 10

/-- A criterion paired with its weight (`WeightedCriterion`). -/
structure WeightedCriterion where
  criterion : Model → List Model → ℚ
  weight : ℚ

/-- Translation of `criteria.reduce((sum, c) => sum + c.weight, 0)`. -/
def totalWeightOf (criteria : List WeightedCriterion) : ℚ :=
  criteria.foldl (fun s c => s + c.weight) 0

/-- The weighted-sum score of a single model (`score += (weight / totalWeight)
* criterion(model, models)`; all-zero or negative total weight gives 0). -/
def scoreOf (models : List Model) (criteria : List WeightedCriterion) (m : Model) : ℚ :=
  let totalWeight := totalWeightOf criteria
  if totalWeight > 0 then
    criteria.foldl (fun acc wc => acc + wc.weight / totalWeight * wc.criterion m models) 0
  else 0

/-- Insert into a descending-by-score list, before the first entry of equal
or lower score. -/
def insertByScore (x : ScoredModel) : List ScoredModel → List ScoredModel
  | [] => [x]
  | y :: ys => if x.score < y.score then y :: insertByScore x ys else x :: y :: ys

/-- Stable descending-by-score sort, the behaviour ECMAScript specifies for
`.sort((a, b) => b.score - a.score)`. -/
def sortByScoreDesc : List ScoredModel → List ScoredModel
  | [] => []
  | x :: xs => insertByScore x (sortByScoreDesc xs)

/-- Translation of `scoreModels` from `score.ts`: attach the normalized weighted-sum score
to every model and sort descending by score (stable). -/
def scoreModels (models : List Model) (criteria : List WeightedCriterion) :
    List ScoredModel :=
  if models.isEmpty then []
  else
    sortByScoreDesc
      (models.map fun m => { toModel := m, score := scoreOf models criteria m })

/-! ## Selector (`select.ts`) -/

/-- The `providerDiversity(maxPerProvider)` built-in constraint. -/
def providerDiversity (maxPerProvider : Nat) : List Model → Model → Bool :=
  fun selected candidate =>
    (selected.filter fun m => m.provider == candidate.provider).length
      < maxPerProvider

/-- The `minContextWindow(tokens)` built-in constraint. -/
def minContextWindow (tokens : ℚ) : List Model → Model → Bool :=
  fun _selected candidate => ctxOf candidate ≥ tokens

/-- Options of `selectModels` (`count` defaults to 1). -/
structure SelectionOptions where
  count : Nat := 1
  constraints : List (List Model → Model → Bool) := []
  filter : Option (Model → Bool) := none

/-- The candidate pool of `selectModels` after the optional pre-filter. -/
def candidatesOf (scored : List ScoredModel) (opts : SelectionOptions) :
    List ScoredModel :=
  match opts.filter with
  | some f => scored.filter fun c => f c.toModel
  | none => scored

/-- First pass of `selectModels`: walk candidates (at running index `i`),
admit a candidate when every constraint accepts it against the
already-selected list, and record admitted indices in `used`. -/
def firstPassGo (constraints : List (List Model → Model → Bool)) (count : Nat) :
    List ScoredModel → Nat → List ScoredModel → List Nat →
      List ScoredModel × List Nat
  | [], _, selected, used => (selected, used)
  | c :: cs, i, selected, used =>
      if count ≤ selected.length then (selected, used)
      else if constraints.all fun k => k (selected.map ScoredModel.toModel) c.toModel then
        firstPassGo constraints count cs (i + 1) (selected ++ [c]) (used ++ [i])
      else firstPassGo constraints count cs (i + 1) selected used

/-- Second pass of `selectModels`: refill from index 0, skipping indices
admitted in the first pass, until `count` is reached. -/
def secondPassGo (count : Nat) (used : List Nat) :
    List ScoredModel → Nat → List ScoredModel → List ScoredModel
  | [], _, selected => selected
  | c :: cs, i, selected =>
      if count ≤ selected.length then selected
      else if used.contains i then secondPassGo count used cs (i + 1) selected
      else secondPassGo count used cs (i + 1) (selected ++ [c])

/-- Translation of `selectModels` from `select.ts`: pre-filter, constrained first pass,
unconstrained second-pass backfill. -/
def selectModels (scored : List ScoredModel) (opts : SelectionOptions) :
    List ScoredModel :=
  let candidates := candidatesOf scored opts
  if candidates.isEmpty then []
  else
    let (selected, used) := firstPassGo opts.constraints opts.count candidates 0 [] []
    secondPassGo opts.count used candidates 0 selected

/-! ## Recommender (`purpose.ts`) -/

/-- The weight triple of a purpose profile. -/
structure Weights where
  cost : ℚ
  quality : ℚ
  context : ℚ

/-- Hard requirements of a profile (`require?`). -/
structure Require where
  tools : Option Bool := none
  minContext : Option ℚ := none

/-- Exclusion rules of a profile (`exclude?`). -/
structure Exclude where
  tiers : Option (List ModelTier) := none
  patterns : Option (List String) := none

/-- Translation of `PurposeProfile` from `types.ts`. -/
structure PurposeProfile where
  preferredTier : ModelTier
  weights : Weights
  require : Option Require := none
  exclude : Option Exclude := none

/-- The built-in purpose registry (`purposes` object). Indexing a JavaScript
object with an unknown key yields `undefined`, so the lookup is an `Option`. -/
def purposes (name : String) : Option PurposeProfile :=
  if name = "cheap" then
    some { preferredTier := .efficient, weights := ⟨6/10, 2/10, 2/10⟩ }
  else if name = "balanced" then
    some { preferredTier := .standard, weights := ⟨3/10, 4/10, 3/10⟩ }
  else if name = "quality" then
    some { preferredTier := .flagship, weights := ⟨1/10, 7/10, 2/10⟩ }
  else if name = "coding" then
    some { preferredTier := .standard, weights := ⟨2/10, 5/10, 3/10⟩,
           require := some { tools := some true } }
  else if name = "creative" then
    some { preferredTier := .flagship, weights := ⟨1/10, 7/10, 2/10⟩ }
  else if name = "reviewer" then
    some { preferredTier := .standard, weights := ⟨2/10, 5/10, 3/10⟩,
           require := some { tools := some true, minContext := some 8000 },
           exclude := some { tiers := some [.efficient],
                             patterns := some ["code", "coder", "codex",
                                               "vision", "-vl", "omni"] } }
  else none

/-- Options of `recommend` (`count` 1, `providerDiversity` false,
`textOnly` true by default). -/
structure RecommendOptions where
  count : Nat := 1
  providerDiversity : Bool := false
  textOnly : Bool := true

/-- The per-model predicate of `applyFilters`. `profile` is the raw result of
the registry lookup; when it is `undefined` (`none`), the first property
access on it (`profile.require`) raises a `TypeError`, embedded as
`Except.error ()`. The text-focus test precedes that access and
short-circuits. A `minContext` of `0` is falsy in JavaScript and disables
the minimum-context test. -/
def applyFilterModel (profile : Option PurposeProfile) (textOnly : Bool)
    (m : Model) : Except Unit Bool :=
  if textOnly && !isTextFocused m then .ok false
  else
    match profile with
    | none => .error ()
    | some p =>
        let requireTools := ((p.require.map Require.tools).getD none).getD false
        let capTools := ((m.capabilities.map Capabilities.tools).getD none).getD false
        if requireTools && !capTools then .ok false
        else if (match (p.require.map Require.minContext).getD none with
            | some v => !(v == 0) && decide (ctxOf m < v)
            | none => false) then .ok false
        else if (match (p.exclude.map Exclude.tiers).getD none with
            | some ts => ts.contains (classifyTier m)
            | none => false) then .ok false
        else if (match (p.exclude.map Exclude.patterns).getD none with
            | some pats => pats.any fun pat =>
                includesStr (strLower m.id) (strLower pat) ||
                includesStr (strLower m.name) (strLower pat)
            | none => false) then .ok false
        else .ok true

/-- Translation of `applyFilters`: filter the model list, propagating the `TypeError` of an
undefined profile (callbacks run left to right, the first throw aborts). -/
def applyFilters (profile : Option PurposeProfile) (textOnly : Bool) :
    List Model → Except Unit (List Model)
  | [] => .ok []
  | m :: ms => do
      let keep ← applyFilterModel profile textOnly m
      let rest ← applyFilters profile textOnly ms
      pure (if keep then m :: rest else rest)

/-- Translation of `buildCriteria`: cost ↦ cost-efficiency, quality ↦ half version-freshness
and half recency, context ↦ context-capacity; zero-weight axes contribute
no criterion. -/
def buildCriteria (p : PurposeProfile) : List WeightedCriterion :=
  (if p.weights.cost > 0 then [⟨costEfficiency, p.weights.cost⟩] else []) ++
  (if p.weights.quality > 0 then
      [⟨versionFreshness, p.weights.quality / 2⟩,
       ⟨recency, p.weights.quality / 2⟩]
    else []) ++
  (if p.weights.context > 0 then [⟨contextCapacity, p.weights.context⟩] else [])

/-- Translation of `tierDistance`: absolute difference of `TIER_ORDER` indices. -/
def tierDistance (a b : ModelTier) : Nat :=
  ((tierIdx a : Int) - (tierIdx b : Int)).natAbs

/-- Tier distance of a scored record from a preferred tier. -/
def recTierDistance (preferredTier : ModelTier) (m : ScoredModel) : Nat :=
  tierDistance (classifyTier m.toModel) preferredTier

/-- Translation of `groupByTierDistance`: buckets at distance 0, 1, 2 from the preferred
tier. The source pushes each record into `groups[d]` in a single pass;
filtering per distance produces the same three lists in the same order. -/
def groupByTierDistance (scored : List ScoredModel) (preferredTier : ModelTier) :
    List (List ScoredModel) :=
  [scored.filter fun m => recTierDistance preferredTier m == 0,
   scored.filter fun m => recTierDistance preferredTier m == 1,
   scored.filter fun m => recTierDistance preferredTier m == 2]

/-- The constrained first pass inside one tier bucket of
`selectFromTierGroups`: every constraint is tested against
`[...result, ...firstPass]` — the records already selected from nearer
buckets plus this bucket's first-pass picks. Returns (first pass, skipped). -/
def groupPass (constraints : List (List Model → Model → Bool))
    (result : List ScoredModel) (remaining : Nat) :
    List ScoredModel → List ScoredModel → List ScoredModel →
      List ScoredModel × List ScoredModel
  | [], fp, sk => (fp, sk)
  | m :: ms, fp, sk =>
      if remaining ≤ fp.length then (fp, sk)
      else if constraints.all fun c =>
          c ((result ++ fp).map ScoredModel.toModel) m.toModel then
        groupPass constraints result remaining ms (fp ++ [m]) sk
      else groupPass constraints result remaining ms fp (sk ++ [m])

/-- Second pass inside one tier bucket: fill from the skipped records,
ignoring constraints. -/
def groupBackfill (remaining : Nat) :
    List ScoredModel → List ScoredModel → List ScoredModel
  | [], fp => fp
  | m :: ms, fp =>
      if remaining ≤ fp.length then fp
      else groupBackfill remaining ms (fp ++ [m])

/-- The bucket walk of `selectFromTierGroups`: nearest bucket first, stop
when `count` is filled, take top-of-bucket when unconstrained, otherwise
run the two-pass selection against the collective `result`. -/
def selectGroupsGo (count : Nat) (constraints : List (List Model → Model → Bool)) :
    List (List ScoredModel) → List ScoredModel → List ScoredModel
  | [], result => result
  | g :: gs, result =>
      if count ≤ result.length then result
      else if g.isEmpty then selectGroupsGo count constraints gs result
      else
        let remaining := count - result.length
        let picked :=
          if constraints.isEmpty then g.take remaining
          else
            let (fp, sk) := groupPass constraints result remaining g [] []
            groupBackfill remaining sk fp
        selectGroupsGo count constraints gs (result ++ picked)

/-- Translation of `selectFromTierGroups` from `purpose.ts`. -/
def selectFromTierGroups (groups : List (List ScoredModel)) (count : Nat)
    (constraints : List (List Model → Model → Bool)) : List ScoredModel :=
  (selectGroupsGo count constraints groups []).take count

/-- Translation of `recommend` from `purpose.ts`. A built-in name (`Sum.inl`) is looked up
in the registry; a custom profile (`Sum.inr`) is used directly. The
`Except.error` branch is the `TypeError` raised on an undefined profile
(unknown purpose name): inside `applyFilters` at the first candidate that
survives the text-focus test, or — were a nonempty filtered list ever
produced without a profile — at `buildCriteria`. -/
def recommend (models : List Model) (purpose : String ⊕ PurposeProfile)
    (options : RecommendOptions) : Except Unit (List ScoredModel) := do
  let profile : Option PurposeProfile :=
    match purpose with
    | .inl name => purposes name
    | .inr p => some p
  let filtered ← applyFilters profile options.textOnly models
  if filtered.isEmpty then return []
  else
    match profile with
    | none => .error ()
    | some p =>
        let criteria := buildCriteria p
        let scored := scoreModels filtered criteria
        let tiered := groupByTierDistance scored p.preferredTier
        let constraints :=
          if options.count > 1 && options.providerDiversity then
            [providerDiversity 1]
          else []
        return selectFromTierGroups tiered options.count constraints

/-! ## Specification-side definitions

The two definitions below are NOT translations of the code: they follow the
words of the specification, and exist to be compared against the code-derived
definitions above. -/

/-- A boundary character for the spec's "word-or-hyphen-bounded" matching:
a space or a hyphen (the edge of the string also counts as a boundary). -/
def isBoundaryChar (c : Char) : Bool := c == ' ' || c == '-'

/-- Strip `pat` from the front of `l`, returning the remainder. -/
def stripPreL : List Char → List Char → Option (List Char)
  | [], rest => some rest
  | _ :: _, [] => none
  | t :: ts, c :: cs => if t == c then stripPreL ts cs else none

/-- Does `tok` occur at the head of `s`, followed by a boundary? -/
def boundedHere (tok s : List Char) : Bool :=
  match stripPreL tok s with
  | some [] => true
  | some (c :: _) => isBoundaryChar c
  | none => false

/-- Scan of `boundedOccurs`: `atBoundary` records whether the previous
character (or the start of the string) is a boundary. -/
def boundedScan (tok : List Char) : Bool → List Char → Bool
  | atBoundary, [] => atBoundary && boundedHere tok []
  | atBoundary, c :: cs =>
      (atBoundary && boundedHere tok (c :: cs)) ||
      boundedScan tok (isBoundaryChar c) cs

/-- Modelled from the spec: `tok` occurs in `s` as a word-or-hyphen-bounded
substring — preceded and followed by a hyphen, a space, or the edge of the
string. -/
def boundedOccurs (s tok : String) : Bool := boundedScan tok.data true s.data

/-- Modelled from the spec (claim C2's reading of the capability-tier
algorithm): every small-variant token matched word-or-hyphen-bounded in the
lowercased id or display name ("a name containing gemini must not match
mini"); otherwise flagship on `opus`/`ultra` as plain substrings, a bounded
`pro`, or input price ≥ 10; otherwise standard. To be compared with
`classifyTier`, which is translated from the code. -/
def specClassifyTier (model : Model) : ModelTier :=
  let id := strLower model.id
  let name := strLower model.name
  let effTokens := ["mini", "nano", "lite", "flash", "haiku", "tiny", "small"]
  if effTokens.any fun t => boundedOccurs id t || boundedOccurs name t then
    .efficient
  else if (["opus", "ultra"].any fun p => includesStr id p || includesStr name p) ||
      boundedOccurs id "pro" || boundedOccurs name "pro" ||
      decide (priceOf model ≥ 10) then
    .flagship
  else .standard

/-- Reference decomposition of `selectModels`: one walk over the candidates
splitting them into the admissions (grown onto `sel`) and the non-admitted
remainder in original order. `selectModels` is proved below to equal the
admissions followed by the remainder truncated at `count`. -/
def splitPass (constraints : List (List Model → Model → Bool)) (count : Nat) :
    List ScoredModel → List ScoredModel → List ScoredModel × List ScoredModel
  | [], sel => (sel, [])
  | c :: cs, sel =>
      if count ≤ sel.length then (sel, c :: cs)
      else if constraints.all fun k => k (sel.map ScoredModel.toModel) c.toModel then
        splitPass constraints count cs (sel ++ [c])
      else
        let (s, r) := splitPass constraints count cs sel
        (s, c :: r)

/-! ## Concrete records used by counterexamples and witnesses -/

/-- A plain text model with the given identity, provider and integer prices. -/
def mkModel (id name provider : String) (inp outp : ℚ) : Model :=
  { id := id, apiId := id, openRouterId := provider ++ "/" ++ id,
    name := name, provider := provider,
    contextWindow := some 128000, pricing := some ⟨inp, outp⟩,
    modality := some ⟨["text"], ["text"]⟩,
    capabilities := some { tools := some true } }

/-! ## Claims about the classifier -/

/-- C1 counterexample: two models with input price 0 — one with output
price 0, one with output price 5 — receive different cost tiers, so
`classifyCostTier` is not purely a function of the input price, and an
input price of 0 does not always map to Free. -/
theorem classifyCostTier_not_input_only :
    classifyCostTier (mkModel "model-x" "Model X" "p" 0 0) = CostTier.free ∧
    classifyCostTier (mkModel "model-y" "Model Y" "p" 0 5) = CostTier.budget ∧
    priceOf (mkModel "model-x" "Model X" "p" 0 0) =
      priceOf (mkModel "model-y" "Model Y" "p" 0 5) := by
  refine ⟨by decide, by decide, by decide⟩

/-- Rank of the cost band as a function of the input and output price
(proof helper: `costIdx (classifyCostTier m) = costRank (priceOf m)
(outPriceOf m)`). -/
def costRank (p q : ℚ) : Nat :=
  if p = 0 ∧ q = 0 then 0
  else if p < 2 then 1
  else if p < 10 then 2
  else if p < 20 then 3
  else 4

theorem costIdx_classify (m : Model) :
    costIdx (classifyCostTier m) = costRank (priceOf m) (outPriceOf m) := by
  have key : classifyCostTier m =
      (if priceOf m = 0 ∧ outPriceOf m = 0 then CostTier.free
       else if priceOf m < 2 then CostTier.budget
       else if priceOf m < 10 then CostTier.standard
       else if priceOf m < 20 then CostTier.premium
       else CostTier.ultra) := rfl
  rw [key]
  unfold costRank
  split_ifs <;> rfl

theorem costRank_mono {p₁ q p₂ : ℚ} (hpos : 0 ≤ p₁) (hin : p₁ ≤ p₂) :
    costRank p₁ q ≤ costRank p₂ q := by
  unfold costRank
  split_ifs <;> first
    | omega
    | (exfalso; simp_all; linarith)
    | (exfalso; simp_all
       have hz : p₁ = 0 := le_antisymm (by linarith) hpos
       simp_all)

/-- C1 (amended): `classifyCostTier` is a function of the input AND output
prices: Free iff both are 0 (missing pricing defaults both to 0); otherwise
Budget for input < 2 — including a zero input price with a nonzero output
price — Standard on [2, 10), Premium on [10, 20), Ultra on [20, ∞); and at
any fixed output price, over the non-negative prices the adapter produces,
the tier is monotonically non-decreasing in the input price. -/
theorem classifyCostTier_characterization (m m₁ m₂ : Model)
    (hpos : 0 ≤ priceOf m₁) (hout : outPriceOf m₁ = outPriceOf m₂)
    (hin : priceOf m₁ ≤ priceOf m₂) :
    (classifyCostTier m = CostTier.free ↔ priceOf m = 0 ∧ outPriceOf m = 0) ∧
    (classifyCostTier m = CostTier.budget ↔
      priceOf m < 2 ∧ ¬(priceOf m = 0 ∧ outPriceOf m = 0)) ∧
    (classifyCostTier m = CostTier.standard ↔ 2 ≤ priceOf m ∧ priceOf m < 10) ∧
    (classifyCostTier m = CostTier.premium ↔ 10 ≤ priceOf m ∧ priceOf m < 20) ∧
    (classifyCostTier m = CostTier.ultra ↔ 20 ≤ priceOf m) ∧
    costIdx (classifyCostTier m₁) ≤ costIdx (classifyCostTier m₂) := by
  have key : ∀ mm : Model, classifyCostTier mm =
      (if priceOf mm = 0 ∧ outPriceOf mm = 0 then CostTier.free
       else if priceOf mm < 2 then CostTier.budget
       else if priceOf mm < 10 then CostTier.standard
       else if priceOf mm < 20 then CostTier.premium
       else CostTier.ultra) := by
    intro mm
    rfl
  refine ⟨?_, ?_, ?_, ?_, ?_, ?_⟩
  · rw [key]; split_ifs with h1 h2 h3 h4 <;> simp_all <;> try linarith
  · rw [key]; split_ifs with h1 h2 h3 h4 <;> simp_all <;> try linarith
  · rw [key]
    split_ifs with h1 h2 h3 h4 <;> simp_all <;>
      first
        | (constructor <;> linarith)
        | linarith
        | (intro h; linarith)
  · rw [key]
    split_ifs with h1 h2 h3 h4 <;> simp_all <;>
      first
        | (constructor <;> linarith)
        | linarith
        | (intro h; linarith)
  · rw [key]; split_ifs with h1 h2 h3 h4 <;> simp_all <;> try linarith
  · rw [costIdx_classify, costIdx_classify, hout]
    exact costRank_mono hpos hin

/-- C2 counterexample: the model id `"destiny"` contains `"tiny"` only inside
the word `"destiny"` — not word-or-hyphen-bounded, so the claim's matching
rule classifies it Standard (`specClassifyTier`) — yet `classifyTier`
returns Efficient, because the code matches `"tiny"` (and `"haiku"`) as
plain unbounded substrings. -/
theorem classifyTier_unbounded_tiny :
    classifyTier (mkModel "destiny" "Destiny" "p" 1 2) = ModelTier.efficient ∧
    specClassifyTier (mkModel "destiny" "Destiny" "p" 1 2) = ModelTier.standard := by
  exact ⟨by decide, by decide⟩

/-- C2 (amended): `classifyTier` evaluates first-match in this order: it
returns Efficient if the lowercased id contains one of `-mini`, `-nano`,
`-lite`, `-flash`, `haiku`, `tiny`, `-small` or the lowercased display name
contains one of ` mini`, ` nano`, ` lite`, ` flash`, `haiku`, `tiny`,
` small` as a plain substring (so `mini` etc. require a preceding hyphen in
the id or a preceding space in the name — which keeps `gemini` from
matching — while `haiku` and `tiny` match anywhere, and no token requires a
right-hand boundary); this takes priority over any flagship signal;
otherwise it returns Flagship if the id or name contains `opus` or `ultra`,
the id contains `-pro`, the name contains ` pro`, or the input price per 1M
tokens is ≥ 10; otherwise Standard. -/
theorem classifyTier_characterization (m : Model) :
    (classifyTier m = ModelTier.efficient ↔
      (includesStr (strLower m.id) "-mini" ||
       includesStr (strLower m.id) "-nano" ||
       includesStr (strLower m.id) "-lite" ||
       includesStr (strLower m.id) "-flash" ||
       includesStr (strLower m.id) "haiku" ||
       includesStr (strLower m.id) "tiny" ||
       includesStr (strLower m.id) "-small" ||
       includesStr (strLower m.name) " mini" ||
       includesStr (strLower m.name) " nano" ||
       includesStr (strLower m.name) " lite" ||
       includesStr (strLower m.name) " flash" ||
       includesStr (strLower m.name) "haiku" ||
       includesStr (strLower m.name) "tiny" ||
       includesStr (strLower m.name) " small") = true) ∧
    (classifyTier m = ModelTier.flagship ↔
      (includesStr (strLower m.id) "-mini" ||
       includesStr (strLower m.id) "-nano" ||
       includesStr (strLower m.id) "-lite" ||
       includesStr (strLower m.id) "-flash" ||
       includesStr (strLower m.id) "haiku" ||
       includesStr (strLower m.id) "tiny" ||
       includesStr (strLower m.id) "-small" ||
       includesStr (strLower m.name) " mini" ||
       includesStr (strLower m.name) " nano" ||
       includesStr (strLower m.name) " lite" ||
       includesStr (strLower m.name) " flash" ||
       includesStr (strLower m.name) "haiku" ||
       includesStr (strLower m.name) "tiny" ||
       includesStr (strLower m.name) " small") = false ∧
      (includesStr (strLower m.id) "opus" || includesStr (strLower m.name) "opus" ||
       includesStr (strLower m.id) "ultra" || includesStr (strLower m.name) "ultra" ||
       includesStr (strLower m.id) "-pro" || includesStr (strLower m.name) " pro" ||
       decide (priceOf m ≥ 10)) = true) ∧
    (classifyTier m = ModelTier.standard ↔
      (includesStr (strLower m.id) "-mini" ||
       includesStr (strLower m.id) "-nano" ||
       includesStr (strLower m.id) "-lite" ||
       includesStr (strLower m.id) "-flash" ||
       includesStr (strLower m.id) "haiku" ||
       includesStr (strLower m.id) "tiny" ||
       includesStr (strLower m.id) "-small" ||
       includesStr (strLower m.name) " mini" ||
       includesStr (strLower m.name) " nano" ||
       includesStr (strLower m.name) " lite" ||
       includesStr (strLower m.name) " flash" ||
       includesStr (strLower m.name) "haiku" ||
       includesStr (strLower m.name) "tiny" ||
       includesStr (strLower m.name) " small") = false ∧
      (includesStr (strLower m.id) "opus" || includesStr (strLower m.name) "opus" ||
       includesStr (strLower m.id) "ultra" || includesStr (strLower m.name) "ultra" ||
       includesStr (strLower m.id) "-pro" || includesStr (strLower m.name) " pro" ||
       decide (priceOf m ≥ 10)) = false) := by
  have key : classifyTier m =
      (if (includesStr (strLower m.id) "-mini" ||
           includesStr (strLower m.id) "-nano" ||
           includesStr (strLower m.id) "-lite" ||
           includesStr (strLower m.id) "-flash" ||
           includesStr (strLower m.id) "haiku" ||
           includesStr (strLower m.id) "tiny" ||
           includesStr (strLower m.id) "-small" ||
           includesStr (strLower m.name) " mini" ||
           includesStr (strLower m.name) " nano" ||
           includesStr (strLower m.name) " lite" ||
           includesStr (strLower m.name) " flash" ||
           includesStr (strLower m.name) "haiku" ||
           includesStr (strLower m.name) "tiny" ||
           includesStr (strLower m.name) " small")
       then ModelTier.efficient
       else if ((["opus", "ultra"].any fun p =>
             includesStr (strLower m.id) p || includesStr (strLower m.name) p) ||
           (includesStr (strLower m.id) "-pro" || includesStr (strLower m.name) " pro") ||
           decide (priceOf m ≥ 10))
       then ModelTier.flagship
       else ModelTier.standard) := rfl
  rw [key]
  simp only [List.any_cons, List.any_nil, Bool.or_false, Bool.or_assoc]
  split_ifs with he hf
  · simp [he]
  · simp only [Bool.not_eq_true] at he
    simp [he, hf]
  · simp only [Bool.not_eq_true] at he hf
    simp [he, hf]

/-- C1 witness: the characterization and monotonicity theorem applied at
concrete models (inputs 3/15, and the pair 1/5 ≤ 5/5). -/
theorem classifyCostTier_characterization_witness :
    0 ≤ priceOf (mkModel "a" "A" "p" 1 5) ∧
    outPriceOf (mkModel "a" "A" "p" 1 5) = outPriceOf (mkModel "b" "B" "p" 5 5) ∧
    priceOf (mkModel "a" "A" "p" 1 5) ≤ priceOf (mkModel "b" "B" "p" 5 5) ∧
    ((classifyCostTier (mkModel "m" "M" "p" 3 15) = CostTier.free ↔
        priceOf (mkModel "m" "M" "p" 3 15) = 0 ∧
        outPriceOf (mkModel "m" "M" "p" 3 15) = 0) ∧
      (classifyCostTier (mkModel "m" "M" "p" 3 15) = CostTier.budget ↔
        priceOf (mkModel "m" "M" "p" 3 15) < 2 ∧
        ¬(priceOf (mkModel "m" "M" "p" 3 15) = 0 ∧
          outPriceOf (mkModel "m" "M" "p" 3 15) = 0)) ∧
      (classifyCostTier (mkModel "m" "M" "p" 3 15) = CostTier.standard ↔
        2 ≤ priceOf (mkModel "m" "M" "p" 3 15) ∧
        priceOf (mkModel "m" "M" "p" 3 15) < 10) ∧
      (classifyCostTier (mkModel "m" "M" "p" 3 15) = CostTier.premium ↔
        10 ≤ priceOf (mkModel "m" "M" "p" 3 15) ∧
        priceOf (mkModel "m" "M" "p" 3 15) < 20) ∧
      (classifyCostTier (mkModel "m" "M" "p" 3 15) = CostTier.ultra ↔
        20 ≤ priceOf (mkModel "m" "M" "p" 3 15)) ∧
      costIdx (classifyCostTier (mkModel "a" "A" "p" 1 5)) ≤
        costIdx (classifyCostTier (mkModel "b" "B" "p" 5 5))) :=
  ⟨by decide, by decide, by decide,
   classifyCostTier_characterization (mkModel "m" "M" "p" 3 15)
     (mkModel "a" "A" "p" 1 5) (mkModel "b" "B" "p" 5 5)
     (by decide) (by decide) (by decide)⟩

/-! ## Claims about the text-focus filter and unknown purposes -/

/-- A profile used by concrete recommendation runs: prefer Standard, all
weight on cost. -/
def costOnlyProfile : PurposeProfile :=
  { preferredTier := .standard, weights := ⟨1, 0, 0⟩ }

/-- A model whose declared outputs are `["embedding"]` — no image, audio or
video output, but also no `"text"` output. -/
def embedModel : Model :=
  { mkModel "embed-model" "Embed Model" "p" 1 2 with
      modality := some ⟨["text"], ["embedding"]⟩ }

/-- C8 counterexample: `embedModel` declares outputs containing none of
image, audio, video, yet the default text-focus filter of `recommend` drops
it (the code additionally requires `"text"` among the outputs; the claim
says such a record is kept). -/
theorem recommend_drops_embedding_output :
    ((embedModel.modality.map Modality.output).getD []).any
        (fun o => ["image", "audio", "video"].contains o) = false ∧
    isTextFocused embedModel = false ∧
    recommend [embedModel] (.inr costOnlyProfile) {} = .ok [] := by
  refine ⟨by decide, by decide, by rfl⟩

/-- C8 (amended): for a profile without require/exclude rules, the per-model
filter of `recommend` under default options keeps a record iff
`isTextFocused` holds, and `isTextFocused` holds iff the record declares no
modality, or its declared outputs include `"text"` and contain none of
image/audio/video. -/
theorem recommend_textFilter_characterization (m : Model) (p : PurposeProfile)
    (hreq : p.require = none) (hexc : p.exclude = none) :
    applyFilterModel (some p) true m = .ok (isTextFocused m) ∧
    (isTextFocused m = true ↔
      m.modality = none ∨
      ∃ mo, m.modality = some mo ∧ mo.output.contains "text" = true ∧
        (mo.output.any fun o => ["image", "audio", "video"].contains o) = false) := by
  constructor
  · unfold applyFilterModel
    cases h : isTextFocused m <;> simp [h, hreq, hexc]
  · unfold isTextFocused
    cases h : m.modality with
    | none => simp
    | some mo => simp [h, Bool.and_eq_true, Bool.not_eq_eq_eq_not]

/-- C8 witness: the text-focus characterization applied at `embedModel` and
`costOnlyProfile`. -/
theorem recommend_textFilter_characterization_witness :
    costOnlyProfile.require = none ∧ costOnlyProfile.exclude = none ∧
    (applyFilterModel (some costOnlyProfile) true embedModel =
        .ok (isTextFocused embedModel) ∧
      (isTextFocused embedModel = true ↔
        embedModel.modality = none ∨
        ∃ mo, embedModel.modality = some mo ∧ mo.output.contains "text" = true ∧
          (mo.output.any fun o => ["image", "audio", "video"].contains o) = false)) :=
  ⟨rfl, rfl,
   recommend_textFilter_characterization embedModel costOnlyProfile rfl rfl⟩

/-- The filter of `recommend` with an undefined profile: a model dropped by
the text-focus test never touches the profile; the first surviving model
raises the `TypeError`. -/
theorem applyFilters_none (textOnly : Bool) (models : List Model) :
    applyFilters none textOnly models =
      if models.all (fun m => textOnly && !isTextFocused m) then .ok []
      else .error () := by
  induction models with
  | nil => rfl
  | cons m ms ih =>
      show (applyFilterModel none textOnly m).bind _ = _
      by_cases h : (textOnly && !isTextFocused m) = true
      · have hm : applyFilterModel none textOnly m = .ok false := by
          unfold applyFilterModel
          rw [if_pos h]
        rw [hm]
        show (applyFilters none textOnly ms).bind _ = _
        rw [ih]
        simp only [List.all_cons, h, Bool.true_and]
        split_ifs <;> first
          | rfl
          | exact (‹False›).elim
      · have hm : applyFilterModel none textOnly m = .error () := by
          unfold applyFilterModel
          rw [if_neg h]
        rw [hm]
        simp only [List.all_cons, Bool.eq_false_iff.mpr h, Bool.false_and,
          if_neg (Bool.false_ne_true)]
        rfl

/-- C7 counterexample: `"fast"` is not a built-in purpose name, yet
`recommend` on the empty model list returns the normal result `[]` rather
than failing with an undefined-profile error. -/
theorem recommend_unknown_name_empty_ok :
    purposes "fast" = none ∧
    recommend [] (.inl "fast") {} = .ok [] :=
  ⟨rfl, rfl⟩

/-- C7 (amended): for a purpose name outside the built-in registry,
`recommend` never substitutes a profile: it returns the normal empty result
when the model list is empty or every model is dropped by the text-focus
pre-check (which runs before the profile is touched), and otherwise raises
a `TypeError` at the first record that reaches the profile's rules — an
incidental crash rather than a deliberate undefined-profile error. -/
theorem recommend_unknown_purpose (models : List Model) (name : String)
    (opts : RecommendOptions) (h : purposes name = none) :
    recommend models (.inl name) opts =
      if models.all (fun m => opts.textOnly && !isTextFocused m) then .ok []
      else .error () := by
  unfold recommend
  simp only [h]
  rw [applyFilters_none]
  split_ifs with hall
  · rfl
  · rfl

/-- C7 witness: a text-focused model reaches the undefined profile, so
`recommend` with the unknown name `"fast"` raises the `TypeError`. -/
theorem recommend_unknown_purpose_witness :
    purposes "fast" = none ∧
    recommend [mkModel "model-a" "Model A" "p" 1 2] (.inl "fast") {} =
      .error () := by
  refine ⟨rfl, ?_⟩
  rw [recommend_unknown_purpose [mkModel "model-a" "Model A" "p" 1 2] "fast" {} rfl]
  rfl

/-! ## Two-pass structure of `selectModels` (claims C5 and C10) -/

/-- Indices produced by `enumFrom i` are at least `i`. -/
theorem enumFrom_fst_ge {α : Type} :
    ∀ (l : List α) (i : Nat) (p : Nat × α), p ∈ l.enumFrom i → i ≤ p.1
  | [], _, _, h => by simp at h
  | c :: cs, i, p, h => by
      rcases List.mem_cons.mp h with h | h
      · simp [h]
      · exact Nat.le_of_succ_le (enumFrom_fst_ge cs (i + 1) p h)

/-- When every recorded index is below `i`, the second-pass filter keeps
the whole remainder. -/
theorem filter_unused_all {α : Type} (used : List Nat) :
    ∀ (l : List α) (i : Nat), (∀ j ∈ used, j < i) →
      ((l.enumFrom i).filter fun p => !(used.contains p.1)).map Prod.snd = l
  | [], _, _ => rfl
  | c :: cs, i, h => by
      have hi : used.contains i = false := by
        by_contra hc
        have : i ∈ used := by
          simpa using Bool.not_eq_false _ |>.mp hc
        exact absurd (h i this) (Nat.lt_irrefl i)
      show ((List.enumFrom i (c :: cs)).filter fun p => !(used.contains p.1)).map
          Prod.snd = c :: cs
      rw [show List.enumFrom i (c :: cs) = (i, c) :: List.enumFrom (i + 1) cs from rfl,
        List.filter_cons]
      simp only [hi, Bool.not_false, if_true, eq_self_iff_true, List.map_cons]
      rw [filter_unused_all used cs (i + 1) (fun j hj => Nat.lt_succ_of_lt (h j hj))]

/-- The second pass of `selectModels` appends the still-unused candidates,
in original order, truncated to the missing count. -/
theorem secondPassGo_eq (count : Nat) (used : List Nat) :
    ∀ (cs : List ScoredModel) (i : Nat) (sel : List ScoredModel),
      secondPassGo count used cs i sel =
        sel ++ (((cs.enumFrom i).filter fun p => !(used.contains p.1)).map
            Prod.snd).take (count - sel.length)
  | [], i, sel => by simp [secondPassGo]
  | c :: cs, i, sel => by
      show (if count ≤ sel.length then sel
            else if used.contains i then secondPassGo count used cs (i + 1) sel
            else secondPassGo count used cs (i + 1) (sel ++ [c])) = _
      by_cases hc : count ≤ sel.length
      · rw [if_pos hc, Nat.sub_eq_zero_of_le hc]
        simp
      · rw [if_neg hc]
        rw [show List.enumFrom i (c :: cs) = (i, c) :: List.enumFrom (i + 1) cs from rfl,
          List.filter_cons]
        by_cases hu : used.contains i
        · rw [if_pos hu]
          simp only [hu, Bool.not_true, if_neg (by simp : ¬(false = true))]
          exact secondPassGo_eq count used cs (i + 1) sel
        · rw [if_neg hu]
          have hu' : used.contains i = false := Bool.not_eq_true _ |>.mp hu
          simp only [hu', Bool.not_false, if_true, eq_self_iff_true, List.map_cons]
          rw [secondPassGo_eq count used cs (i + 1) (sel ++ [c])]
          have hpos : count - sel.length = (count - (sel.length + 1)) + 1 := by omega
          rw [hpos, List.take_succ_cons]
          simp [List.length_append]

/-- Correspondence between the index-tracking first pass of `selectModels`
and the reference decomposition `splitPass`: the selected lists agree, the
recorded index list extends the incoming one with indices ≥ `i` only, and
filtering the candidates by the recorded indices recovers `splitPass`'s
remainder. -/
theorem firstPassGo_spec (constraints : List (List Model → Model → Bool)) (count : Nat) :
    ∀ (cs : List ScoredModel) (i : Nat) (sel : List ScoredModel) (used : List Nat),
      (∀ j ∈ used, j < i) →
      (firstPassGo constraints count cs i sel used).1 =
          (splitPass constraints count cs sel).1 ∧
      (∀ j ∈ (firstPassGo constraints count cs i sel used).2, j ∈ used ∨ i ≤ j) ∧
      (∀ j ∈ used, j ∈ (firstPassGo constraints count cs i sel used).2) ∧
      ((cs.enumFrom i).filter fun p =>
            !((firstPassGo constraints count cs i sel used).2.contains p.1)).map
          Prod.snd = (splitPass constraints count cs sel).2
  | [], _, sel, used, _ =>
      ⟨rfl, fun j hj => Or.inl hj, fun _ hj => hj, rfl⟩
  | c :: cs, i, sel, used, h => by
      by_cases hc : count ≤ sel.length
      · have hfp : firstPassGo constraints count (c :: cs) i sel used = (sel, used) := by
          simp only [firstPassGo]
          rw [if_pos hc]
        have hsp : splitPass constraints count (c :: cs) sel = (sel, c :: cs) := by
          simp only [splitPass]
          rw [if_pos hc]
        rw [hfp, hsp]
        exact ⟨rfl, fun j hj => Or.inl hj, fun _ hj => hj,
          filter_unused_all used (c :: cs) i h⟩
      · by_cases hk :
            (constraints.all fun k => k (sel.map ScoredModel.toModel) c.toModel) = true
        · have hfp : firstPassGo constraints count (c :: cs) i sel used =
              firstPassGo constraints count cs (i + 1) (sel ++ [c]) (used ++ [i]) := by
            simp only [firstPassGo]
            rw [if_neg hc, if_pos hk]
          have hsp : splitPass constraints count (c :: cs) sel =
              splitPass constraints count cs (sel ++ [c]) := by
            simp only [splitPass]
            rw [if_neg hc, if_pos hk]
          have h' : ∀ j ∈ used ++ [i], j < i + 1 := by
            intro j hj
            rcases List.mem_append.mp hj with hj | hj
            · exact Nat.lt_succ_of_lt (h j hj)
            · simp at hj
              omega
          obtain ⟨ih1, ih2, ih3, ih4⟩ :=
            firstPassGo_spec constraints count cs (i + 1) (sel ++ [c]) (used ++ [i]) h'
          rw [hfp, hsp]
          refine ⟨ih1, ?_, ?_, ?_⟩
          · intro j hj
            rcases ih2 j hj with hj' | hj'
            · rcases List.mem_append.mp hj' with hj'' | hj''
              · exact Or.inl hj''
              · simp at hj''
                omega
            · omega
          · intro j hj
            exact ih3 j (List.mem_append.mpr (Or.inl hj))
          · have hic :
                (firstPassGo constraints count cs (i + 1) (sel ++ [c])
                    (used ++ [i])).2.contains i = true := by
              simpa using ih3 i (by simp)
            rw [show List.enumFrom i (c :: cs) = (i, c) :: List.enumFrom (i + 1) cs from rfl,
              List.filter_cons]
            simp only [hic, Bool.not_true, if_neg (by simp : ¬(false = true))]
            exact ih4
        · have hfp : firstPassGo constraints count (c :: cs) i sel used =
              firstPassGo constraints count cs (i + 1) sel used := by
            simp only [firstPassGo]
            rw [if_neg hc, if_neg hk]
          have hsp1 : (splitPass constraints count (c :: cs) sel).1 =
              (splitPass constraints count cs sel).1 := by
            simp only [splitPass]
            rw [if_neg hc, if_neg hk]
          have hsp2 : (splitPass constraints count (c :: cs) sel).2 =
              c :: (splitPass constraints count cs sel).2 := by
            simp only [splitPass]
            rw [if_neg hc, if_neg hk]
          have h' : ∀ j ∈ used, j < i + 1 := fun j hj => Nat.lt_succ_of_lt (h j hj)
          obtain ⟨ih1, ih2, ih3, ih4⟩ :=
            firstPassGo_spec constraints count cs (i + 1) sel used h'
          rw [hfp]
          refine ⟨ih1.trans hsp1.symm, ?_, ih3, ?_⟩
          · intro j hj
            rcases ih2 j hj with hj' | hj'
            · exact Or.inl hj'
            · omega
          · have hni :
                (firstPassGo constraints count cs (i + 1) sel used).2.contains i
                  = false := by
              by_contra hcon
              have hmem : i ∈ (firstPassGo constraints count cs (i + 1) sel used).2 := by
                simpa using Bool.not_eq_false _ |>.mp hcon
              rcases ih2 i hmem with hin | hin
              · exact absurd (h i hin) (Nat.lt_irrefl i)
              · omega
            rw [hsp2,
              show List.enumFrom i (c :: cs) = (i, c) :: List.enumFrom (i + 1) cs from rfl,
              List.filter_cons]
            simp only [hni, Bool.not_false, if_true, eq_self_iff_true, List.map_cons]
            rw [ih4]

/-- Theorem: `selectModels` equals its reference decomposition: the first-pass
admissions in candidate order, followed by the non-admitted candidates in
candidate order, truncated at `count`. -/
theorem selectModels_decomp (scored : List ScoredModel) (opts : SelectionOptions) :
    selectModels scored opts =
      (splitPass opts.constraints opts.count (candidatesOf scored opts) []).1 ++
        ((splitPass opts.constraints opts.count (candidatesOf scored opts) []).2.take
          (opts.count -
            (splitPass opts.constraints opts.count
                (candidatesOf scored opts) []).1.length)) := by
  by_cases hemp : (candidatesOf scored opts).isEmpty
  · have he : candidatesOf scored opts = [] := List.isEmpty_iff.mp hemp
    unfold selectModels
    rw [if_pos hemp, he]
    simp [splitPass]
  · obtain ⟨ih1, ih2, ih3, ih4⟩ :=
      firstPassGo_spec opts.constraints opts.count (candidatesOf scored opts) 0 [] []
        (by intro j hj; simp at hj)
    show (if (candidatesOf scored opts).isEmpty then ([] : List ScoredModel)
          else
            secondPassGo opts.count
              (firstPassGo opts.constraints opts.count (candidatesOf scored opts) 0 [] []).2
              (candidatesOf scored opts) 0
              (firstPassGo opts.constraints opts.count
                (candidatesOf scored opts) 0 [] []).1) = _
    rw [if_neg hemp, secondPassGo_eq, ih1, ih4]

/-- Conservation: every candidate ends up in exactly one component of
`splitPass`. -/
theorem splitPass_length (constraints : List (List Model → Model → Bool)) (count : Nat) :
    ∀ (cs sel : List ScoredModel),
      (splitPass constraints count cs sel).1.length +
        (splitPass constraints count cs sel).2.length = sel.length + cs.length
  | [], sel => by simp [splitPass]
  | c :: cs, sel => by
      simp only [splitPass]
      split_ifs with hc hk
      · simp
      · have ih := splitPass_length constraints count cs (sel ++ [c])
        simp only [List.length_append, List.length_cons, List.length_nil,
          List.length_singleton] at ih ⊢
        omega
      · have ih := splitPass_length constraints count cs sel
        have e1 : (match splitPass constraints count cs sel with
            | (s, r) => (s, c :: r)).1 = (splitPass constraints count cs sel).1 := rfl
        have e2 : (match splitPass constraints count cs sel with
            | (s, r) => (s, c :: r)).2 =
              c :: (splitPass constraints count cs sel).2 := rfl
        rw [e1, e2]
        simp only [List.length_cons] at ih ⊢
        omega

/-- The first pass never admits beyond `count`. -/
theorem splitPass_fst_le (constraints : List (List Model → Model → Bool)) (count : Nat) :
    ∀ (cs sel : List ScoredModel), sel.length ≤ count →
      (splitPass constraints count cs sel).1.length ≤ count
  | [], sel, h => by simpa [splitPass] using h
  | c :: cs, sel, h => by
      simp only [splitPass]
      split_ifs with hc hk
      · simpa using h
      · apply splitPass_fst_le constraints count cs (sel ++ [c])
        simp only [List.length_append, List.length_singleton]
        omega
      · have ih := splitPass_fst_le constraints count cs sel h
        have e1 : (match splitPass constraints count cs sel with
            | (s, r) => (s, c :: r)).1 = (splitPass constraints count cs sel).1 := rfl
        rw [e1]
        exact ih

/-- C5: `selectModels` returns exactly `min count n` records, where `n` is
the number of candidates that survive the pre-filter — the two-pass
algorithm never under-fills when post-filter candidates exist, whether or
not the constraints can be satisfied. -/
theorem selectModels_length (scored : List ScoredModel) (opts : SelectionOptions) :
    (selectModels scored opts).length =
      min opts.count (candidatesOf scored opts).length := by
  rw [selectModels_decomp]
  have hle := splitPass_fst_le opts.constraints opts.count (candidatesOf scored opts) []
    (by simp)
  have hsum := splitPass_length opts.constraints opts.count (candidatesOf scored opts) []
  simp only [List.length_append, List.length_take, List.length_nil] at hsum ⊢
  omega

/-- Concrete scored records for the selection claims: two providers, scores
descending. -/
def sA : ScoredModel := { toModel := mkModel "model-a" "Model A" "alpha" 1 2, score := 3 }

/-- Second record of provider `alpha`, middle score. -/
def sB : ScoredModel := { toModel := mkModel "model-b" "Model B" "alpha" 2 4, score := 2 }

/-- Record of provider `beta`, lowest score. -/
def sC : ScoredModel := { toModel := mkModel "model-c" "Model C" "beta" 3 6, score := 1 }

/-- C10: `selectModels` output is the first-pass admissions (candidates
passing every constraint) in candidate order, followed by the second-pass
backfills in candidate order, truncated at `count`; consequently a
score-sorted input need not produce a score-sorted output — under a
provider-diversity constraint the deferred same-provider record `sB`
(score 2) is backfilled after the first-pass pick `sC` (score 1). -/
theorem selectModels_two_pass_structure :
    (∀ (scored : List ScoredModel) (opts : SelectionOptions),
      selectModels scored opts =
        (splitPass opts.constraints opts.count (candidatesOf scored opts) []).1 ++
          ((splitPass opts.constraints opts.count (candidatesOf scored opts) []).2.take
            (opts.count -
              (splitPass opts.constraints opts.count
                  (candidatesOf scored opts) []).1.length))) ∧
    List.Pairwise (fun a b : ScoredModel => b.score ≤ a.score) [sA, sB, sC] ∧
    selectModels [sA, sB, sC] { count := 3, constraints := [providerDiversity 1] } =
      [sA, sC, sB] ∧
    ¬ List.Pairwise (fun a b : ScoredModel => b.score ≤ a.score) [sA, sC, sB] := by
  refine ⟨fun scored opts => selectModels_decomp scored opts, ?_, ?_, ?_⟩
  · decide
  · decide
  · decide

/-! ## Claims about the scorer -/

/-- A min-fold is bounded by its initial value. -/
theorem foldl_min_le_init : ∀ (vs : List ℚ) (a : ℚ), vs.foldl min a ≤ a
  | [], _ => le_refl _
  | v :: vs, a => le_trans (foldl_min_le_init vs (min a v)) (min_le_left a v)

/-- A min-fold is bounded by every member. -/
theorem foldl_min_le_mem : ∀ (vs : List ℚ) (a x : ℚ), x ∈ vs → vs.foldl min a ≤ x
  | [], _, _, hx => by simp at hx
  | v :: vs, a, x, hx => by
      rcases List.mem_cons.mp hx with hx | hx
      · subst hx
        exact le_trans (foldl_min_le_init vs (min a x)) (min_le_right a x)
      · exact foldl_min_le_mem vs (min a v) x hx

/-- A min-fold returns its initial value or a member. -/
theorem foldl_min_choice : ∀ (vs : List ℚ) (a : ℚ),
    vs.foldl min a = a ∨ vs.foldl min a ∈ vs
  | [], _ => Or.inl rfl
  | v :: vs, a => by
      rcases foldl_min_choice vs (min a v) with h | h
      · rcases min_choice a v with hm | hm
        · exact Or.inl (by rw [show (v :: vs).foldl min a = vs.foldl min (min a v) from rfl, h, hm])
        · refine Or.inr (List.mem_cons.mpr (Or.inl ?_))
          rw [show (v :: vs).foldl min a = vs.foldl min (min a v) from rfl, h, hm]
      · exact Or.inr (List.mem_cons.mpr (Or.inr h))

/-- A max-fold dominates its initial value. -/
theorem foldl_max_ge_init : ∀ (vs : List ℚ) (a : ℚ), a ≤ vs.foldl max a
  | [], _ => le_refl _
  | v :: vs, a => le_trans (le_max_left a v) (foldl_max_ge_init vs (max a v))

/-- A max-fold dominates every member. -/
theorem foldl_max_ge_mem : ∀ (vs : List ℚ) (a x : ℚ), x ∈ vs → x ≤ vs.foldl max a
  | [], _, _, hx => by simp at hx
  | v :: vs, a, x, hx => by
      rcases List.mem_cons.mp hx with hx | hx
      · subst hx
        exact le_trans (le_max_right a x) (foldl_max_ge_init vs (max a x))
      · exact foldl_max_ge_mem vs (max a v) x hx

/-- A max-fold returns its initial value or a member. -/
theorem foldl_max_choice : ∀ (vs : List ℚ) (a : ℚ),
    vs.foldl max a = a ∨ vs.foldl max a ∈ vs
  | [], _ => Or.inl rfl
  | v :: vs, a => by
      rcases foldl_max_choice vs (max a v) with h | h
      · rcases max_choice a v with hm | hm
        · exact Or.inl (by rw [show (v :: vs).foldl max a = vs.foldl max (max a v) from rfl, h, hm])
        · refine Or.inr (List.mem_cons.mpr (Or.inl ?_))
          rw [show (v :: vs).foldl max a = vs.foldl max (max a v) from rfl, h, hm]
      · exact Or.inr (List.mem_cons.mpr (Or.inr h))

/-- The fold `rangeMin` bounds every member of a list. -/
theorem rangeMin_le_mem (vs : List ℚ) (x : ℚ) (hx : x ∈ vs) : rangeMin vs ≤ x := by
  cases vs with
  | nil => simp at hx
  | cons v rest =>
      rcases List.mem_cons.mp hx with h | h
      · subst h
        exact foldl_min_le_init rest x
      · exact foldl_min_le_mem rest v x h

/-- The fold `rangeMax` dominates every member of a list. -/
theorem rangeMax_ge_mem (vs : List ℚ) (x : ℚ) (hx : x ∈ vs) : x ≤ rangeMax vs := by
  cases vs with
  | nil => simp at hx
  | cons v rest =>
      rcases List.mem_cons.mp hx with h | h
      · subst h
        exact foldl_max_ge_init rest x
      · exact foldl_max_ge_mem rest v x h

/-- On a non-empty list, `rangeMin` is attained by a member. -/
theorem rangeMin_mem (v : ℚ) (rest : List ℚ) : rangeMin (v :: rest) ∈ v :: rest := by
  rcases foldl_min_choice rest v with h | h
  · exact List.mem_cons.mpr (Or.inl (by rw [rangeMin, h]))
  · exact List.mem_cons.mpr (Or.inr (by rw [rangeMin]; exact h))

/-- On a non-empty list, `rangeMax` is attained by a member. -/
theorem rangeMax_mem (v : ℚ) (rest : List ℚ) : rangeMax (v :: rest) ∈ v :: rest := by
  rcases foldl_max_choice rest v with h | h
  · exact List.mem_cons.mpr (Or.inl (by rw [rangeMax, h]))
  · exact List.mem_cons.mpr (Or.inr (by rw [rangeMax]; exact h))

/-- C3: for every non-empty comparison set and every model in it,
`costEfficiency` lies in [0, 1]; when the set holds at least two distinct
input prices, a minimum-priced member scores exactly 1 and a maximum-priced
member exactly 0; when all input prices agree, every member scores 0
(not 1/2). -/
theorem costEfficiency_props (m : Model) (models : List Model) (hm : m ∈ models) :
    (0 ≤ costEfficiency m models ∧ costEfficiency m models ≤ 1) ∧
    ((∃ m₁ ∈ models, ∃ m₂ ∈ models, priceOf m₁ ≠ priceOf m₂) →
      ((∀ mo ∈ models, priceOf m ≤ priceOf mo) → costEfficiency m models = 1) ∧
      ((∀ mo ∈ models, priceOf mo ≤ priceOf m) → costEfficiency m models = 0)) ∧
    ((∀ m₁ ∈ models, ∀ m₂ ∈ models, priceOf m₁ = priceOf m₂) →
      costEfficiency m models = 0) := by
  have hp : priceOf m ∈ models.map priceOf := List.mem_map_of_mem priceOf hm
  have hmn : rangeMin (models.map priceOf) ≤ priceOf m :=
    rangeMin_le_mem _ _ hp
  have hmx : priceOf m ≤ rangeMax (models.map priceOf) :=
    rangeMax_ge_mem _ _ hp
  obtain ⟨v, rest, hvr⟩ : ∃ v rest, models.map priceOf = v :: rest := by
    cases hmodels : models.map priceOf with
    | nil => rw [hmodels] at hp; simp at hp
    | cons v rest => exact ⟨v, rest, rfl⟩
  have hmn_mem : rangeMin (models.map priceOf) ∈ models.map priceOf := by
    rw [hvr]; exact rangeMin_mem v rest
  have hmx_mem : rangeMax (models.map priceOf) ∈ models.map priceOf := by
    rw [hvr]; exact rangeMax_mem v rest
  obtain ⟨mn', hmn'_mem, hmn'⟩ := List.mem_map.mp hmn_mem
  obtain ⟨mx', hmx'_mem, hmx'⟩ := List.mem_map.mp hmx_mem
  by_cases heq : rangeMax (models.map priceOf) = rangeMin (models.map priceOf)
  · have hval : costEfficiency m models = 0 := by
      simp only [costEfficiency, minMax]
      rw [if_pos heq]
      rw [if_pos ⟨rfl, heq.symm⟩]
    refine ⟨⟨le_of_eq hval.symm, by rw [hval]; norm_num⟩, ?_, fun _ => hval⟩
    rintro ⟨m₁, hm₁, m₂, hm₂, hne⟩
    exfalso
    apply hne
    have h1 : priceOf m₁ = rangeMin (models.map priceOf) := le_antisymm
      (heq ▸ rangeMax_ge_mem _ _ (List.mem_map_of_mem priceOf hm₁))
      (rangeMin_le_mem _ _ (List.mem_map_of_mem priceOf hm₁))
    have h2 : priceOf m₂ = rangeMin (models.map priceOf) := le_antisymm
      (heq ▸ rangeMax_ge_mem _ _ (List.mem_map_of_mem priceOf hm₂))
      (rangeMin_le_mem _ _ (List.mem_map_of_mem priceOf hm₂))
    rw [h1, h2]
  · have hlt : rangeMin (models.map priceOf) < rangeMax (models.map priceOf) :=
      lt_of_le_of_ne (le_trans hmn hmx) (Ne.symm heq)
    have hpos : 0 < rangeMax (models.map priceOf) - rangeMin (models.map priceOf) := by
      linarith
    have hval : costEfficiency m models =
        1 - (priceOf m - rangeMin (models.map priceOf)) /
          (rangeMax (models.map priceOf) - rangeMin (models.map priceOf)) := by
      simp only [costEfficiency, minMax]
      rw [if_neg heq, if_neg (by rintro ⟨-, hco⟩; exact heq hco.symm)]
    have hfrac0 : 0 ≤ (priceOf m - rangeMin (models.map priceOf)) /
        (rangeMax (models.map priceOf) - rangeMin (models.map priceOf)) :=
      div_nonneg (by linarith) (le_of_lt hpos)
    have hfrac1 : (priceOf m - rangeMin (models.map priceOf)) /
        (rangeMax (models.map priceOf) - rangeMin (models.map priceOf)) ≤ 1 :=
      (div_le_one hpos).mpr (by linarith)
    refine ⟨⟨by rw [hval]; linarith, by rw [hval]; linarith⟩, ?_, ?_⟩
    · refine fun _ => ⟨?_, ?_⟩
      · intro hminimal
        have : priceOf m = rangeMin (models.map priceOf) :=
          le_antisymm (hmn' ▸ hminimal mn' hmn'_mem) hmn
        rw [hval, this]
        field_simp
      · intro hmaximal
        have : priceOf m = rangeMax (models.map priceOf) :=
          le_antisymm hmx (hmx' ▸ hmaximal mx' hmx'_mem)
        rw [hval, this]
        field_simp
    · intro hall
      exfalso
      exact heq (by rw [← hmn', ← hmx']; exact hall mx' hmx'_mem mn' hmn'_mem)

/-- C3 witness: the cost-efficiency bounds applied to a concrete two-model
set with distinct integer prices. -/
theorem costEfficiency_props_witness :
    mkModel "a" "A" "p" 1 5 ∈ [mkModel "a" "A" "p" 1 5, mkModel "b" "B" "p" 3 6] ∧
    ((0 ≤ costEfficiency (mkModel "a" "A" "p" 1 5)
          [mkModel "a" "A" "p" 1 5, mkModel "b" "B" "p" 3 6] ∧
        costEfficiency (mkModel "a" "A" "p" 1 5)
          [mkModel "a" "A" "p" 1 5, mkModel "b" "B" "p" 3 6] ≤ 1) ∧
      ((∃ m₁ ∈ [mkModel "a" "A" "p" 1 5, mkModel "b" "B" "p" 3 6],
          ∃ m₂ ∈ [mkModel "a" "A" "p" 1 5, mkModel "b" "B" "p" 3 6],
            priceOf m₁ ≠ priceOf m₂) →
        ((∀ mo ∈ [mkModel "a" "A" "p" 1 5, mkModel "b" "B" "p" 3 6],
            priceOf (mkModel "a" "A" "p" 1 5) ≤ priceOf mo) →
          costEfficiency (mkModel "a" "A" "p" 1 5)
            [mkModel "a" "A" "p" 1 5, mkModel "b" "B" "p" 3 6] = 1) ∧
        ((∀ mo ∈ [mkModel "a" "A" "p" 1 5, mkModel "b" "B" "p" 3 6],
            priceOf mo ≤ priceOf (mkModel "a" "A" "p" 1 5)) →
          costEfficiency (mkModel "a" "A" "p" 1 5)
            [mkModel "a" "A" "p" 1 5, mkModel "b" "B" "p" 3 6] = 0)) ∧
      ((∀ m₁ ∈ [mkModel "a" "A" "p" 1 5, mkModel "b" "B" "p" 3 6],
          ∀ m₂ ∈ [mkModel "a" "A" "p" 1 5, mkModel "b" "B" "p" 3 6],
            priceOf m₁ = priceOf m₂) →
        costEfficiency (mkModel "a" "A" "p" 1 5)
          [mkModel "a" "A" "p" 1 5, mkModel "b" "B" "p" 3 6] = 0)) :=
  ⟨by decide,
   costEfficiency_props (mkModel "a" "A" "p" 1 5)
     [mkModel "a" "A" "p" 1 5, mkModel "b" "B" "p" 3 6] (by decide)⟩

/-- Scaling every weight by `c` scales a weight sum by `c`. -/
theorem totalWeight_scale_aux (c : ℚ) :
    ∀ (criteria : List WeightedCriterion) (a : ℚ),
      ((criteria.map fun wc =>
          (⟨wc.criterion, c * wc.weight⟩ : WeightedCriterion)).foldl
            (fun s k => s + k.weight) (c * a)) =
        c * criteria.foldl (fun s k => s + k.weight) a
  | [], _ => rfl
  | wc :: rest, a => by
      show ((rest.map fun wc =>
          (⟨wc.criterion, c * wc.weight⟩ : WeightedCriterion)).foldl
            (fun s k => s + k.weight) (c * a + c * wc.weight)) = _
      rw [← mul_add]
      exact totalWeight_scale_aux c rest (a + wc.weight)

/-- Scaling every weight by `c` scales the total weight by `c`. -/
theorem totalWeightOf_scale (c : ℚ) (criteria : List WeightedCriterion) :
    totalWeightOf (criteria.map fun wc => ⟨wc.criterion, c * wc.weight⟩) =
      c * totalWeightOf criteria := by
  have := totalWeight_scale_aux c criteria 0
  rw [mul_zero] at this
  exact this

/-- The per-model score is invariant under scaling all weights by a positive
constant. -/
theorem scoreOf_scale (models : List Model) (m : Model)
    (criteria : List WeightedCriterion) (c : ℚ) (hc : 0 < c) :
    scoreOf models (criteria.map fun wc => ⟨wc.criterion, c * wc.weight⟩) m =
      scoreOf models criteria m := by
  unfold scoreOf
  rw [totalWeightOf_scale]
  by_cases hT : totalWeightOf criteria > 0
  · rw [if_pos hT, if_pos (mul_pos hc hT)]
    have hfold : ∀ (rest : List WeightedCriterion) (acc : ℚ),
        ((rest.map fun wc =>
            (⟨wc.criterion, c * wc.weight⟩ : WeightedCriterion)).foldl
          (fun acc wc =>
            acc + wc.weight / (c * totalWeightOf criteria) * wc.criterion m models)
          acc) =
          rest.foldl
            (fun acc wc =>
              acc + wc.weight / totalWeightOf criteria * wc.criterion m models)
            acc := by
      intro rest
      induction rest with
      | nil => intro acc; rfl
      | cons wc rest ih =>
          intro acc
          show ((rest.map fun wc =>
              (⟨wc.criterion, c * wc.weight⟩ : WeightedCriterion)).foldl _
            (acc + c * wc.weight / (c * totalWeightOf criteria) *
              wc.criterion m models)) = _
          rw [mul_div_mul_left _ _ (ne_of_gt hc)]
          exact ih _
    exact hfold criteria 0
  · rw [if_neg hT, if_neg (fun h => hT (by nlinarith))]

/-- C4: `scoreModels` depends on the weights only through their ratios —
multiplying every weight by a positive constant produces an identical
output list (identical scores and identical order); the weight pairs
`{2, 8}` and `{0.2, 0.8}` are such a pair (constant 1/10). -/
theorem scoreModels_weight_scale (models : List Model)
    (criteria : List WeightedCriterion) (c : ℚ) (hc : 0 < c) :
    scoreModels models (criteria.map fun wc => ⟨wc.criterion, c * wc.weight⟩) =
      scoreModels models criteria := by
  unfold scoreModels
  by_cases hemp : models.isEmpty
  · rw [if_pos hemp, if_pos hemp]
  · rw [if_neg hemp, if_neg hemp]
    have hmap :
        (models.map fun m =>
          ({ toModel := m,
             score := scoreOf models
               (criteria.map fun wc => ⟨wc.criterion, c * wc.weight⟩) m } :
            ScoredModel)) =
        models.map fun m =>
          ({ toModel := m, score := scoreOf models criteria m } : ScoredModel) := by
      apply List.map_congr_left
      intro m _
      rw [scoreOf_scale models m criteria c hc]
    rw [hmap]

/-- C4 witness: weights `{2, 8}` and `{0.2, 0.8}` over cost-efficiency and
context-capacity produce identical scored lists (scaling constant 1/10 > 0
applied to `{2, 8}`). -/
theorem scoreModels_weight_scale_witness :
    (0 : ℚ) < 1 / 10 ∧
    scoreModels [mkModel "a" "A" "p" 1 5, mkModel "b" "B" "q" 3 6]
        (([⟨costEfficiency, 2⟩, ⟨contextCapacity, 8⟩] : List WeightedCriterion).map
          fun wc => (⟨wc.criterion, (1 / 10) * wc.weight⟩ : WeightedCriterion)) =
      scoreModels [mkModel "a" "A" "p" 1 5, mkModel "b" "B" "q" 3 6]
        ([⟨costEfficiency, 2⟩, ⟨contextCapacity, 8⟩] : List WeightedCriterion) :=
  ⟨by norm_num,
   scoreModels_weight_scale [mkModel "a" "A" "p" 1 5, mkModel "b" "B" "q" 3 6]
     ([⟨costEfficiency, 2⟩, ⟨contextCapacity, 8⟩] : List WeightedCriterion)
     (1 / 10) (by norm_num)⟩

/-! ## Tier-ordering of `recommend` (claims C6 and C9) -/

/-- First-pass picks of a tier bucket come from the accumulator or the
bucket. -/
theorem groupPass_fst_mem (constraints : List (List Model → Model → Bool))
    (result : List ScoredModel) (remaining : Nat) :
    ∀ (g fp sk : List ScoredModel) (x : ScoredModel),
      x ∈ (groupPass constraints result remaining g fp sk).1 → x ∈ fp ∨ x ∈ g
  | [], _, _, _, hx => Or.inl hx
  | m :: ms, fp, sk, x, hx => by
      revert hx
      simp only [groupPass]
      split_ifs with h1 h2
      · exact fun hx => Or.inl hx
      · intro hx
        rcases groupPass_fst_mem constraints result remaining ms (fp ++ [m]) sk x hx
          with h | h
        · rcases List.mem_append.mp h with h | h
          · exact Or.inl h
          · simp only [List.mem_singleton] at h
            subst h
            exact Or.inr (List.mem_cons.mpr (Or.inl rfl))
        · exact Or.inr (List.mem_cons.mpr (Or.inr h))
      · intro hx
        rcases groupPass_fst_mem constraints result remaining ms fp (sk ++ [m]) x hx
          with h | h
        · exact Or.inl h
        · exact Or.inr (List.mem_cons.mpr (Or.inr h))

/-- Skipped records of a tier bucket come from the accumulator or the
bucket. -/
theorem groupPass_snd_mem (constraints : List (List Model → Model → Bool))
    (result : List ScoredModel) (remaining : Nat) :
    ∀ (g fp sk : List ScoredModel) (x : ScoredModel),
      x ∈ (groupPass constraints result remaining g fp sk).2 → x ∈ sk ∨ x ∈ g
  | [], _, _, _, hx => Or.inl hx
  | m :: ms, fp, sk, x, hx => by
      revert hx
      simp only [groupPass]
      split_ifs with h1 h2
      · exact fun hx => Or.inl hx
      · intro hx
        rcases groupPass_snd_mem constraints result remaining ms (fp ++ [m]) sk x hx
          with h | h
        · exact Or.inl h
        · exact Or.inr (List.mem_cons.mpr (Or.inr h))
      · intro hx
        rcases groupPass_snd_mem constraints result remaining ms fp (sk ++ [m]) x hx
          with h | h
        · rcases List.mem_append.mp h with h | h
          · exact Or.inl h
          · simp only [List.mem_singleton] at h
            subst h
            exact Or.inr (List.mem_cons.mpr (Or.inl rfl))
        · exact Or.inr (List.mem_cons.mpr (Or.inr h))

/-- Backfilled records come from the first pass or the skipped list. -/
theorem groupBackfill_mem (remaining : Nat) :
    ∀ (sk fp : List ScoredModel) (x : ScoredModel),
      x ∈ groupBackfill remaining sk fp → x ∈ fp ∨ x ∈ sk
  | [], _, _, hx => Or.inl hx
  | m :: ms, fp, x, hx => by
      revert hx
      simp only [groupBackfill]
      split_ifs with h1
      · exact fun hx => Or.inl hx
      · intro hx
        rcases groupBackfill_mem remaining ms (fp ++ [m]) x hx with h | h
        · rcases List.mem_append.mp h with h | h
          · exact Or.inl h
          · simp only [List.mem_singleton] at h
            subst h
            exact Or.inr (List.mem_cons.mpr (Or.inl rfl))
        · exact Or.inr (List.mem_cons.mpr (Or.inr h))

/-- The bucket walk preserves a pairwise relation when the accumulated
result is related to every bucket, and buckets are internally and mutually
related. -/
theorem selectGroupsGo_pairwise (R : ScoredModel → ScoredModel → Prop)
    (count : Nat) (constraints : List (List Model → Model → Bool)) :
    ∀ (groups : List (List ScoredModel)) (result : List ScoredModel),
      List.Pairwise R result →
      (∀ x ∈ result, ∀ g ∈ groups, ∀ y ∈ g, R x y) →
      List.Pairwise (fun g g' => ∀ x ∈ g, ∀ y ∈ g', R x y) groups →
      (∀ g ∈ groups, ∀ x ∈ g, ∀ y ∈ g, R x y) →
      List.Pairwise R (selectGroupsGo count constraints groups result)
  | [], _, h1, _, _, _ => h1
  | g :: gs, result, h1, h2, h3, h4 => by
      simp only [selectGroupsGo]
      have key : ∀ picked : List ScoredModel, (∀ x ∈ picked, x ∈ g) →
          List.Pairwise R (selectGroupsGo count constraints gs (result ++ picked)) := by
        intro picked hpicked
        apply selectGroupsGo_pairwise R count constraints gs
        · rw [List.pairwise_append]
          refine ⟨h1, ?_, ?_⟩
          · exact List.pairwise_of_forall_mem_list fun a ha b hb =>
              h4 g (List.mem_cons.mpr (Or.inl rfl)) a (hpicked a ha) b (hpicked b hb)
          · intro a ha b hb
            exact h2 a ha g (List.mem_cons.mpr (Or.inl rfl)) b (hpicked b hb)
        · intro x hx g' hg' y hy
          rcases List.mem_append.mp hx with hx | hx
          · exact h2 x hx g' (List.mem_cons.mpr (Or.inr hg')) y hy
          · exact (List.pairwise_cons.mp h3).1 g' hg' x (hpicked x hx) y hy
        · exact (List.pairwise_cons.mp h3).2
        · exact fun g' hg' => h4 g' (List.mem_cons.mpr (Or.inr hg'))
      split_ifs with hc hg hcons
      · exact h1
      · exact selectGroupsGo_pairwise R count constraints gs result h1
          (fun x hx g' hg' => h2 x hx g' (List.mem_cons.mpr (Or.inr hg')))
          (List.pairwise_cons.mp h3).2
          (fun g' hg' => h4 g' (List.mem_cons.mpr (Or.inr hg')))
      · exact key _ (fun x hx => List.take_subset _ g hx)
      · refine key _ (fun x hx => ?_)
        rcases groupBackfill_mem _ _ _ x hx with h | h
        · rcases groupPass_fst_mem constraints result _ g [] [] x h with h' | h'
          · simp at h'
          · exact h'
        · rcases groupPass_snd_mem constraints result _ g [] [] x h with h' | h'
          · simp at h'
          · exact h'

/-- With a defined profile, the per-model filter never raises. -/
theorem applyFilterModel_isOk (p : PurposeProfile) (textOnly : Bool) (m : Model) :
    ∃ b, applyFilterModel (some p) textOnly m = .ok b := by
  simp only [applyFilterModel]
  split_ifs <;> exact ⟨_, rfl⟩

/-- With a defined profile, filtering never raises. -/
theorem applyFilters_isOk (p : PurposeProfile) (textOnly : Bool) :
    ∀ (ms : List Model), ∃ l, applyFilters (some p) textOnly ms = .ok l
  | [] => ⟨[], rfl⟩
  | m :: ms => by
      obtain ⟨b, hb⟩ := applyFilterModel_isOk p textOnly m
      obtain ⟨l, hl⟩ := applyFilters_isOk p textOnly ms
      refine ⟨if b then m :: l else l, ?_⟩
      show (applyFilterModel (some p) textOnly m).bind _ = _
      rw [hb]
      show (applyFilters (some p) textOnly ms).bind _ = _
      rw [hl]
      rfl

/-- The success path of `recommend` with an explicit profile. -/
theorem recommend_inr_eq (models : List Model) (p : PurposeProfile)
    (options : RecommendOptions) (l : List Model)
    (hl : applyFilters (some p) options.textOnly models = .ok l) :
    recommend models (Sum.inr p) options =
      if l.isEmpty then .ok []
      else .ok (selectFromTierGroups
        (groupByTierDistance (scoreModels l (buildCriteria p)) p.preferredTier)
        options.count
        (if options.count > 1 && options.providerDiversity then
          [providerDiversity 1]
        else [])) := by
  show (applyFilters (some p) options.textOnly models).bind _ = _
  rw [hl]
  rfl

/-- C6: in a `recommend` result, every record at tier distance d from the
profile's preferred tier appears before every record at a greater distance
— an off-tier record never precedes an on-tier record, regardless of their
scores. -/
theorem recommend_tier_distance_order (models : List Model) (p : PurposeProfile)
    (options : RecommendOptions) :
    List.Pairwise
      (fun a b =>
        recTierDistance p.preferredTier a ≤ recTierDistance p.preferredTier b)
      ((recommend models (Sum.inr p) options).toOption.getD []) := by
  obtain ⟨l, hl⟩ := applyFilters_isOk p options.textOnly models
  rw [recommend_inr_eq models p options l hl]
  have hok : ∀ x : List ScoredModel,
      ((Except.ok x : Except Unit (List ScoredModel)).toOption.getD []) = x :=
    fun _ => rfl
  by_cases he : l.isEmpty
  · rw [if_pos he, hok]
    exact List.Pairwise.nil
  · rw [if_neg he, hok]
    have hmem : ∀ (d : Nat) (x : ScoredModel),
        x ∈ (scoreModels l (buildCriteria p)).filter
            (fun mm => recTierDistance p.preferredTier mm == d) →
        recTierDistance p.preferredTier x = d := by
      intro d x hx
      simpa using (List.mem_filter.mp hx).2
    unfold selectFromTierGroups
    apply List.Pairwise.sublist (List.take_sublist _ _)
    apply selectGroupsGo_pairwise
    · exact List.Pairwise.nil
    · intro x hx
      simp at hx
    · unfold groupByTierDistance
      refine List.Pairwise.cons ?_ (List.Pairwise.cons ?_
        (List.Pairwise.cons ?_ List.Pairwise.nil))
      · intro g' hg' x hx y hy
        rcases List.mem_cons.mp hg' with h | h
        · subst h
          rw [hmem 0 x hx, hmem 1 y hy]
          omega
        · rcases List.mem_cons.mp h with h | h
          · subst h
            rw [hmem 0 x hx, hmem 2 y hy]
            omega
          · simp at h
      · intro g' hg' x hx y hy
        rcases List.mem_cons.mp hg' with h | h
        · subst h
          rw [hmem 1 x hx, hmem 2 y hy]
          omega
        · simp at h
      · intro g' hg'
        simp at hg'
    · intro g hg x hx y hy
      unfold groupByTierDistance at hg
      rcases List.mem_cons.mp hg with h | h
      · subst h
        rw [hmem 0 x hx, hmem 0 y hy]
      · rcases List.mem_cons.mp h with h | h
        · subst h
          rw [hmem 1 x hx, hmem 1 y hy]
        · rcases List.mem_cons.mp h with h | h
          · subst h
            rw [hmem 2 x hx, hmem 2 y hy]
          · simp at h

/-- C9 (amended): when the caller enables provider diversity (and
count > 1, so `recommend` passes the constraint to the bucket walk), the
limit is applied collectively across tier buckets: a provider chosen from
the nearer bucket blocks the first-pass admission of a same-provider
candidate in the farther bucket, and the farther bucket's pick skips to
the next distinct-provider candidate. -/
theorem selectFromTierGroups_cross_bucket_diversity (a b c : ScoredModel)
    (hb : b.toModel.provider = a.toModel.provider)
    (hc : c.toModel.provider ≠ a.toModel.provider) :
    selectFromTierGroups [[a], [b, c]] 2 [providerDiversity 1] = [a, c] := by
  have hb' : (a.toModel.provider == b.toModel.provider) = true := by
    rw [hb]
    simp
  have hc' : (a.toModel.provider == c.toModel.provider) = false := by
    rw [beq_eq_false_iff_ne]
    exact fun h => hc h.symm
  simp [selectFromTierGroups, selectGroupsGo, groupPass, groupBackfill,
    providerDiversity, hb', hc']

/-- C9 witness: the cross-bucket diversity theorem applied at the concrete
records `sA`, `sB` (same provider) and `sC` (distinct provider). -/
theorem selectFromTierGroups_cross_bucket_diversity_witness :
    sB.toModel.provider = sA.toModel.provider ∧
    sC.toModel.provider ≠ sA.toModel.provider ∧
    selectFromTierGroups [[sA], [sB, sC]] 2 [providerDiversity 1] = [sA, sC] :=
  ⟨by decide, by decide,
   selectFromTierGroups_cross_bucket_diversity sA sB sC (by decide) (by decide)⟩

/-- Concrete models for the diversity-default counterexample: two records of
provider `alpha` and one of provider `beta`, all Standard tier. -/
def mA : Model := mkModel "model-a" "Model A" "alpha" 1 2

/-- Second `alpha` record, more expensive. -/
def mB : Model := mkModel "model-b" "Model B" "alpha" 3 6

/-- The `beta` record, same price as `mB`. -/
def mC : Model := mkModel "model-c" "Model C" "beta" 3 6

/-- Concrete scores of the three diversity-counterexample models under the
cost-only profile: `mA` is cheapest (score 1), the others tie at 0. -/
theorem scoreModels_diversity_example :
    scoreModels [mA, mB, mC] (buildCriteria costOnlyProfile) =
      [{ toModel := mA, score := 1 }, { toModel := mB, score := 0 },
       { toModel := mC, score := 0 }] := by
  norm_num [scoreModels, buildCriteria, costOnlyProfile, scoreOf, totalWeightOf,
    costEfficiency, minMax, rangeMin, rangeMax, priceOf, mA, mB, mC, mkModel,
    sortByScoreDesc, insertByScore, min_def, max_def]

/-- C9 counterexample: with default options (`providerDiversity` omitted),
`recommend` applies no diversity constraint at all — both same-provider
`alpha` records are returned even though the distinct-provider `beta`
candidate survives filtering and scoring; explicitly enabling the option
changes the result, so the constraint was inactive in the default
invocation. -/
theorem recommend_no_diversity_by_default :
    recommend [mA, mB, mC] (Sum.inr costOnlyProfile) { count := 2 } =
      .ok [{ toModel := mA, score := 1 }, { toModel := mB, score := 0 }] ∧
    mA.provider = "alpha" ∧ mB.provider = "alpha" ∧ mC.provider = "beta" ∧
    recommend [mA, mB, mC] (Sum.inr costOnlyProfile)
        { count := 2, providerDiversity := true } =
      .ok [{ toModel := mA, score := 1 }, { toModel := mC, score := 0 }] := by
  have hfil : ∀ (t : Bool), applyFilters (some costOnlyProfile) t [mA, mB, mC] =
      .ok [mA, mB, mC] := by
    intro t
    cases t <;> rfl
  refine ⟨?_, by decide, by decide, by decide, ?_⟩
  · rw [recommend_inr_eq [mA, mB, mC] costOnlyProfile { count := 2 } [mA, mB, mC]
      (hfil true)]
    rw [if_neg (by decide), scoreModels_diversity_example]
    rw [if_neg (by decide)]
    exact congrArg Except.ok (by decide)
  · rw [recommend_inr_eq [mA, mB, mC] costOnlyProfile
      { count := 2, providerDiversity := true } [mA, mB, mC] (hfil true)]
    rw [if_neg (by decide), scoreModels_diversity_example]
    rw [if_pos (by decide)]
    exact congrArg Except.ok (by decide)
